import Mathlib

/-!
Verification of the tool-invocation dispatcher of this repository.

The dispatcher lives in the live-API hook (source file src/unnamed/part_001):
the handler onToolCall receives a batch of function-call requests, runs the
mock handlers fetchVoucherStatus and submitDailyReport (or a default-ok
fallback), JSON-stringifies each handler output into the result entry, and
hands the full batch to sendToolResponse.

Modelling conventions (shallow embedding of the TypeScript source):
* JavaScript runtime values are the inductive JVal below. Numbers are
  modelled as integers (the repository only ever compares a count against
  zero; float-only behaviour such as NaN is outside the model), and strings
  as Lean strings of Unicode scalars.
* A handler that can throw is a function into Except String JVal; the
  .error case models a thrown exception and carries its message.
* JSON.stringify and JSON.parse are modelled by ser / parseJSON below,
  faithful to the fragment of JSON that the dispatcher produces: stringify
  drops object fields whose value is undefined and renders undefined array
  elements as null; the parser reads exactly the whitespace-free documents
  stringify emits.
* The simulated latencies (800 ms in fetchVoucherStatus, 600 ms in
  submitDailyReport, none on the fallback path) do not influence any
  handler result, but they do determine the order in which the concurrent
  Promise.all branches push into the shared functionResponses array; the
  dispatchOrder function reproduces that event-loop order.
-/

/-- A JavaScript runtime value, as far as the dispatcher can observe one. -/
inductive JVal where
  | str (s : String)
  | num (n : Int)
  | bool (b : Bool)
  | null
  | undef
  | arr (elems : List JVal)
  | obj (fields : List (String × JVal))
deriving Repr

mutual

/-- Structural equality test on values (JVal nests lists, so the stock
DecidableEq deriving does not apply; the instance below is built from this). -/
def jvalBeq : JVal → JVal → Bool
  | .str a, .str b => a == b
  | .num a, .num b => a == b
  | .bool a, .bool b => a == b
  | .null, .null => true
  | .undef, .undef => true
  | .arr a, .arr b => jvalListBeq a b
  | .obj a, .obj b => jvalFieldsBeq a b
  | _, _ => false

/-- Elementwise jvalBeq on lists of values. -/
def jvalListBeq : List JVal → List JVal → Bool
  | [], [] => true
  | x :: xs, y :: ys => jvalBeq x y && jvalListBeq xs ys
  | _, _ => false

/-- Elementwise jvalBeq on field lists, comparing keys with string equality. -/
def jvalFieldsBeq : List (String × JVal) → List (String × JVal) → Bool
  | [], [] => true
  | (k, v) :: xs, (l, w) :: ys => k == l && jvalBeq v w && jvalFieldsBeq xs ys
  | _, _ => false

end

theorem jvalBeq_iff_aux : ∀ (n : Nat) (a b : JVal), sizeOf a ≤ n →
    (jvalBeq a b = true ↔ a = b) := by
  intro n
  induction n with
  | zero =>
    intro a b ha
    exact absurd ha (by cases a <;> simp)
  | succ n ih =>
    intro a b ha
    have harr : ∀ (xs : List JVal), (∀ x ∈ xs, sizeOf x ≤ n) →
        ∀ ys : List JVal, (jvalListBeq xs ys = true ↔ xs = ys) := by
      intro xs
      induction xs with
      | nil => intro _ ys; cases ys <;> simp [jvalListBeq]
      | cons x xs ihx =>
        intro hx ys
        cases ys with
        | nil => simp [jvalListBeq]
        | cons y ys =>
          simp [jvalListBeq, Bool.and_eq_true, ih x y (hx x (by simp)),
                ihx (fun z hz => hx z (by simp [hz])) ys]
    have hobj : ∀ (xs : List (String × JVal)), (∀ p ∈ xs, sizeOf p.2 ≤ n) →
        ∀ ys : List (String × JVal), (jvalFieldsBeq xs ys = true ↔ xs = ys) := by
      intro xs
      induction xs with
      | nil => intro _ ys; cases ys <;> simp [jvalFieldsBeq]
      | cons p xs ihx =>
        intro hx ys
        obtain ⟨k, v⟩ := p
        cases ys with
        | nil => simp [jvalFieldsBeq]
        | cons q ys =>
          obtain ⟨l, w⟩ := q
          simp [jvalFieldsBeq, Bool.and_eq_true, ih v w (hx (k, v) (by simp)),
                ihx (fun z hz => hx z (by simp [hz])) ys, and_assoc]
    cases a <;> cases b <;> simp [jvalBeq]
    case arr.arr xs ys =>
      apply harr
      intro x hx
      have hlt := List.sizeOf_lt_of_mem hx
      simp at ha
      omega
    case obj.obj xs ys =>
      apply hobj
      intro p hp
      have hlt := List.sizeOf_lt_of_mem hp
      obtain ⟨k, v⟩ := p
      simp at ha hlt ⊢
      omega

theorem jvalBeq_iff (a b : JVal) : jvalBeq a b = true ↔ a = b :=
  jvalBeq_iff_aux (sizeOf a) a b le_rfl

instance : DecidableEq JVal := fun a b => decidable_of_iff _ (jvalBeq_iff a b)

deriving instance DecidableEq for Except

/-- JavaScript truthiness of a value (an empty string, zero, false, null and
undefined are falsy; every array and object is truthy). -/
def truthy : JVal → Bool
  | .str s => !s.isEmpty
  | .num n => n ≠ 0
  | .bool b => b
  | .null => false
  | .undef => false
  | .arr _ => true
  | .obj _ => true

/-- First binding of a key in a field list, or undefined when the key is
absent (JavaScript objects bind each key once, so first is also last). -/
def fieldValue (fields : List (String × JVal)) (key : String) : JVal :=
  match fields with
  | [] => .undef
  | (k, v) :: rest => if k = key then v else fieldValue rest key

/-- Field projection used to state properties of payload objects: the
bound value of a key of an object, or undefined. -/
def jvField : JVal → String → JVal
  | .obj fields, key => fieldValue fields key
  | _, _ => (.undef)

/-- JavaScript property read base.key, as used by the destructuring in
fetchVoucherStatus and the direct access in submitDailyReport: reading from
null or undefined throws a TypeError; reading a key that no fixture uses
from a primitive yields undefined. -/
def jsProp (base : JVal) (key : String) : Except String JVal :=
  match base with
  | .null => .error "TypeError: cannot read properties of null"
  | .undef => .error "TypeError: cannot read properties of undefined"
  | .obj fields => .ok (fieldValue fields key)
  | _ => .ok (.undef)

/-- The ASCII uppercase map of a string, the fragment of toUpperCase that
the fixture comparisons can observe. -/
def upperStr (s : String) : String := String.mk (s.data.map Char.toUpper)

/-- The ASCII lowercase map of a string, the fragment of toLowerCase that
the fixture comparisons can observe. -/
def lowerStr (s : String) : String := String.mk (s.data.map Char.toLower)

/-- value.toUpperCase(): defined on strings only; on any other value the
call throws a TypeError (the ASCII case map matches the fixtures involved). -/
def jsToUpperCase : JVal → Except String String
  | .str s => .ok (upperStr s)
  | _ => .error "TypeError: toUpperCase is not a function"

/-- value.toLowerCase(): same contract as jsToUpperCase. -/
def jsToLowerCase : JVal → Except String String
  | .str s => .ok (lowerStr s)
  | _ => .error "TypeError: toLowerCase is not a function"

/-! ### The two mock handlers (source lines 42 to 113) -/

/-- Payload for a recognised, active voucher id. -/
def activeVoucherPayload : JVal :=
  .obj [("status", .str "active"), ("discount", .str "25%"),
        ("expires", .str "2024-12-31")]

/-- Payload for the known expired voucher id. -/
def expiredVoucherPayload : JVal :=
  .obj [("status", .str "expired"),
        ("reason", .str "Voucher has passed its expiry date.")]

/-- Payload for the known active loyalty e-mail address. -/
def activeLoyaltyPayload : JVal :=
  .obj [("status", .str "active"), ("discount", .str "10% loyalty voucher"),
        ("expires", .str "2025-01-31")]

/-- Payload for the known redeemed e-mail address. -/
def redeemedLoyaltyPayload : JVal :=
  .obj [("status", .str "expired"),
        ("reason", .str "Voucher was a one-time use and has been redeemed.")]

/-- Payload when neither identifier matches a fixture. -/
def notFoundPayload : JVal :=
  .obj [("status", .str "not_found"),
        ("message", .str "No voucher could be found with the provided details.")]

/-- The get_voucher_status handler (source lines 42 to 85). Destructures
voucherId and customerEmail off the argument object, tries the voucher-id
fixtures when voucherId is truthy, then falls through to the e-mail
fixtures when customerEmail is truthy, and reports not_found otherwise.
The 800 ms simulated delay changes no result and is modelled only by
handlerDelayMs below. -/
def fetchVoucherStatus (args : JVal) : Except String JVal := do
  let voucherId ← jsProp args "voucherId"
  let customerEmail ← jsProp args "customerEmail"
  if truthy voucherId then
    let u ← jsToUpperCase voucherId
    if u = "VOUCHER123" then
      return activeVoucherPayload
    if u = "EXPIRED456" then
      return expiredVoucherPayload
  if truthy customerEmail then
    let email ← jsToLowerCase customerEmail
    if email = "active@example.com" then
      return activeLoyaltyPayload
    if email = "expired@example.com" then
      return redeemedLoyaltyPayload
  return notFoundPayload

/-- Decimal digit character for k below ten. -/
def decDigit (k : Nat) : Char := Char.ofNat (48 + k)

/-- Decimal digit characters of a natural number, most significant first. -/
def natChars (n : Nat) : List Char :=
  if n < 10 then [decDigit n]
  else natChars (n / 10) ++ [decDigit (n % 10)]
decreasing_by omega

/-- Decimal string of a natural number, the way a JavaScript template
literal renders an integral number. -/
def natStr (n : Nat) : String := String.mk (natChars n)

/-- The time-derived mock report identifier (source line 105). -/
def reportIdString (now : Nat) : String := "report_" ++ natStr now

/-- Payload submitDailyReport returns when issuedVouchers fails validation. -/
def invalidReportPayload : JVal :=
  .obj [("status", .str "error"),
        ("message", .str "Invalid number of issued vouchers.")]

/-- Payload submitDailyReport returns on success: a success status, a
message embedding the report id, the report id itself, and the argument
object echoed back verbatim. -/
def reportSuccessPayload (now : Nat) (args : JVal) : JVal :=
  .obj [("status", .str "success"),
        ("message", .str ("Report successfully submitted with ID: "
                          ++ reportIdString now ++ ".")),
        ("reportId", .str (reportIdString now)),
        ("submittedData", args)]

/-- True exactly when the value is a number (the typeof test on line 97). -/
def isJsNumber : JVal → Bool
  | .num _ => true
  | _ => false

/-- The numeric comparison value < 0, evaluated only after the typeof test
has established that the value is a number. -/
def jsNumNeg : JVal → Bool
  | .num n => n < 0
  | _ => false

/-- The insert_daily_report handler (source lines 88 to 113). now is the
millisecond clock value the handler observes through new Date().getTime().
The 600 ms simulated delay is modelled by handlerDelayMs below. -/
def submitDailyReport (now : Nat) (args : JVal) : Except String JVal := do
  let iv ← jsProp args "issuedVouchers"
  if !isJsNumber iv || jsNumNeg iv then
    return invalidReportPayload
  return reportSuccessPayload now args

/-! ### JSON.stringify (source line 243 serialises every handler output) -/

/-- Lowercase hexadecimal digit for k below sixteen. -/
def hexDigit (k : Nat) : Char :=
  if k < 10 then Char.ofNat (48 + k) else Char.ofNat (87 + k)

/-- JSON.stringify escaping of one string character: quote and backslash get
a backslash escape, the control characters with short forms use them, every
other control character becomes a four-digit lowercase unicode escape, and
all remaining characters pass through unchanged. -/
def escJChar (c : Char) : List Char :=
  if c = '"' then ['\\', '"']
  else if c = '\\' then ['\\', '\\']
  else if c = Char.ofNat 8 then ['\\', 'b']
  else if c = Char.ofNat 9 then ['\\', 't']
  else if c = Char.ofNat 10 then ['\\', 'n']
  else if c = Char.ofNat 12 then ['\\', 'f']
  else if c = Char.ofNat 13 then ['\\', 'r']
  else if c.toNat < 32 then
    ['\\', 'u', hexDigit (c.toNat / 4096 % 16), hexDigit (c.toNat / 256 % 16),
     hexDigit (c.toNat / 16 % 16), hexDigit (c.toNat % 16)]
  else [c]

/-- A string serialised the way JSON.stringify emits it: quoted and escaped. -/
def serStr (s : String) : List Char :=
  '"' :: (s.data.flatMap escJChar ++ ['"'])

/-- Characters of an integer in the decimal form JSON.stringify uses. -/
def intChars (i : Int) : List Char :=
  if i < 0 then '-' :: natChars i.natAbs else natChars i.natAbs

/-- True exactly for the undefined value. -/
def isUndef : JVal → Bool
  | .undef => true
  | _ => false

mutual

/-- JSON.stringify of a value, to a character list and without any optional
whitespace, exactly as the dispatcher calls it. An undefined array element
serialises as null, matching JSON.stringify; undefined never occurs at the
top level in the dispatcher (every handler output is an object), and the
same null rendering keeps this function total. -/
def ser : JVal → List Char
  | .str s => serStr s
  | .num n => intChars n
  | .bool true => ['t', 'r', 'u', 'e']
  | .bool false => ['f', 'a', 'l', 's', 'e']
  | .null => ['n', 'u', 'l', 'l']
  | .undef => ['n', 'u', 'l', 'l']
  | .arr es => '[' :: (serElems es ++ [']'])
  | .obj fs => '{' :: (serMembers fs ++ ['}'])

/-- Comma-separated serialisation of array elements. -/
def serElems : List JVal → List Char
  | [] => []
  | [v] => ser v
  | v :: vs => ser v ++ ',' :: serElems vs

/-- Comma-separated serialisation of the object members whose value is not
undefined; JSON.stringify drops undefined-valued properties entirely. -/
def serMembers : List (String × JVal) → List Char
  | [] => []
  | (k, v) :: fs =>
      if isUndef v then serMembers fs
      else serStr k ++ ':' :: (ser v ++ serMembersTail fs)

/-- The members after the first kept one, each preceded by a comma. -/
def serMembersTail : List (String × JVal) → List Char
  | [] => []
  | (k, v) :: fs =>
      if isUndef v then serMembersTail fs
      else ',' :: (serStr k ++ ':' :: (ser v ++ serMembersTail fs))

end

/-- The JSON text of a value as a string, as pushed into response.result. -/
def serJSON (v : JVal) : String := String.mk (ser v)

/-! ### JSON.parse (the round-trip side of the codec)

The parser below accepts the whitespace-free documents JSON.stringify
emits, which is the only input shape the round-trip claims quantify over.
Numbers are integers, matching the numeric fragment of the value model,
and unicode escapes denote scalar values (lone surrogate escapes are
outside the model, since the string model carries Unicode scalars). -/

/-- True on the ten decimal digit characters. -/
def isDig (c : Char) : Bool := 48 ≤ c.toNat && c.toNat ≤ 57

/-- Numeric value of a decimal digit character. -/
def digVal (c : Char) : Nat := c.toNat - 48

/-- Split a leading run of decimal digits off the input. -/
def grabDigits : List Char → List Char × List Char
  | c :: cs =>
      if isDig c then
        let p := grabDigits cs
        (c :: p.1, p.2)
      else ([], c :: cs)
  | [] => ([], [])

/-- The number a digit run denotes. -/
def digitsVal (ds : List Char) : Nat :=
  ds.foldl (fun a c => 10 * a + digVal c) 0

/-- Input that cannot extend a digit run: empty, or headed by a non-digit.
Inside a serialised document every character after a number is one of the
comma, closing bracket or closing brace, so this always holds there. -/
def digitBoundary : List Char → Bool
  | [] => true
  | c :: _ => !isDig c

/-- A leading nonempty digit run and its value, or none. -/
def readNat (cs : List Char) : Option (Nat × List Char) :=
  match grabDigits cs with
  | ([], _) => none
  | (ds, rest) => some (digitsVal ds, rest)

/-- Numeric value of a hexadecimal digit character, either case. -/
def hexVal (c : Char) : Option Nat :=
  if 48 ≤ c.toNat ∧ c.toNat ≤ 57 then some (c.toNat - 48)
  else if 97 ≤ c.toNat ∧ c.toNat ≤ 102 then some (c.toNat - 87)
  else if 65 ≤ c.toNat ∧ c.toNat ≤ 70 then some (c.toNat - 55)
  else none

/-- String body parser: consumes characters up to the closing quote,
undoing the escapes JSON knows, with the accumulator in reverse order. -/
def readStr (acc : List Char) (cs : List Char) : Option (String × List Char) :=
  match cs with
  | [] => none
  | c :: rest =>
    if c = '"' then some (String.mk acc.reverse, rest)
    else if c = '\\' then
      match rest with
      | [] => none
      | esc :: r1 =>
        if esc = 'u' then
          match r1 with
          | a :: b :: c2 :: d :: r2 =>
              match hexVal a, hexVal b, hexVal c2, hexVal d with
              | some va, some vb, some vc, some vd =>
                  readStr (Char.ofNat (((va * 16 + vb) * 16 + vc) * 16 + vd) :: acc) r2
              | _, _, _, _ => none
          | _ => none
        else if esc = '"' then readStr ('"' :: acc) r1
        else if esc = '\\' then readStr ('\\' :: acc) r1
        else if esc = '/' then readStr ('/' :: acc) r1
        else if esc = 'b' then readStr (Char.ofNat 8 :: acc) r1
        else if esc = 't' then readStr (Char.ofNat 9 :: acc) r1
        else if esc = 'n' then readStr (Char.ofNat 10 :: acc) r1
        else if esc = 'f' then readStr (Char.ofNat 12 :: acc) r1
        else if esc = 'r' then readStr (Char.ofNat 13 :: acc) r1
        else none
    else readStr (c :: acc) rest
termination_by structural cs

mutual

/-- One JSON value off the front of the input; fuel bounds the recursion
depth and any fuel at least jsize of the value suffices. -/
def jparse : Nat → List Char → Option (JVal × List Char)
  | 0, _ => none
  | _ + 1, [] => none
  | fuel + 1, c :: r =>
      if c = 'n' then
        match r with
        | 'u' :: 'l' :: 'l' :: r2 => some (.null, r2)
        | _ => none
      else if c = 't' then
        match r with
        | 'r' :: 'u' :: 'e' :: r2 => some (.bool true, r2)
        | _ => none
      else if c = 'f' then
        match r with
        | 'a' :: 'l' :: 's' :: 'e' :: r2 => some (.bool false, r2)
        | _ => none
      else if c = '"' then
        match readStr [] r with
        | some (s, r2) => some (.str s, r2)
        | none => none
      else if c = '[' then
        match r with
        | [] => none
        | c2 :: r2 =>
            if c2 = ']' then some (.arr [], r2)
            else
              match jparseElems fuel (c2 :: r2) with
              | some (es, r3) => some (.arr es, r3)
              | none => none
      else if c = '{' then
        match r with
        | [] => none
        | c2 :: r2 =>
            if c2 = '}' then some (.obj [], r2)
            else
              match jparseMembers fuel (c2 :: r2) with
              | some (fs, r3) => some (.obj fs, r3)
              | none => none
      else if c = '-' then
        match readNat r with
        | some (m, r2) => some (.num (-(m : Int)), r2)
        | none => none
      else if isDig c then
        match readNat (c :: r) with
        | some (m, r2) => some (.num (m : Int), r2)
        | none => none
      else none
termination_by structural fuel _cs => fuel

/-- One or more comma-separated array elements and the closing bracket. -/
def jparseElems : Nat → List Char → Option (List JVal × List Char)
  | 0, _ => none
  | fuel + 1, cs =>
    match jparse fuel cs with
    | none => none
    | some (v, r) =>
      match r with
      | ',' :: r2 =>
          match jparseElems fuel r2 with
          | some (vs, r3) => some (v :: vs, r3)
          | none => none
      | ']' :: r2 => some ([v], r2)
      | _ => none
termination_by structural fuel _cs => fuel

/-- One or more comma-separated object members and the closing brace. -/
def jparseMembers : Nat → List Char → Option (List (String × JVal) × List Char)
  | 0, _ => none
  | fuel + 1, cs =>
    match cs with
    | '"' :: r =>
        match readStr [] r with
        | none => none
        | some (k, r1) =>
          match r1 with
          | ':' :: r2 =>
              match jparse fuel r2 with
              | none => none
              | some (v, r3) =>
                match r3 with
                | ',' :: r4 =>
                    match jparseMembers fuel r4 with
                    | some (ms, r5) => some ((k, v) :: ms, r5)
                    | none => none
                | '}' :: r4 => some ([(k, v)], r4)
                | _ => none
          | _ => none
    | _ => none
termination_by structural fuel _cs => fuel

end

/-- JSON.parse of a whole document: the parse must consume every character.
The fuel, one more than the input length, always suffices (jsize_le_ser
below bounds the fuel a value needs by its serialised length). -/
def parseJSON (s : String) : Option JVal :=
  match jparse (s.length + 1) s.data with
  | some (v, []) => some v
  | _ => none

mutual

/-- Fuel sufficient for jparse to read back the serialisation of a value. -/
def jsize : JVal → Nat
  | .arr es => 1 + jsizeL es
  | .obj fs => 1 + jsizeF fs
  | _ => 1

/-- Fuel for a nonempty element list (jparseElems spends one unit per element). -/
def jsizeL : List JVal → Nat
  | [] => 0
  | v :: vs => 1 + jsize v + jsizeL vs

/-- Fuel for a nonempty member list (jparseMembers spends one unit per member). -/
def jsizeF : List (String × JVal) → Nat
  | [] => 0
  | (_, v) :: fs => 1 + jsize v + jsizeF fs

end

mutual

/-- True when a value contains no undefined anywhere. Arguments arriving
over the wire are JSON-decoded and therefore pure; purity is what makes
JSON.stringify lossless (an undefined-valued property would be dropped). -/
def jsonPure : JVal → Bool
  | .str _ => true
  | .num _ => true
  | .bool _ => true
  | .null => true
  | .undef => false
  | .arr es => jsonPureL es
  | .obj fs => jsonPureF fs

/-- jsonPure on every element of a list. -/
def jsonPureL : List JVal → Bool
  | [] => true
  | v :: vs => jsonPure v && jsonPureL vs

/-- jsonPure on every member value of a field list. -/
def jsonPureF : List (String × JVal) → Bool
  | [] => true
  | (_, v) :: fs => jsonPure v && jsonPureF fs

end

/-! ### Tool registries (src/lib/tools/customer-support.ts and the generic
list in src/unnamed/part_000). Only the names matter to the dispatcher:
lookup is exact-match on the request name and unknown names fall back to a
default acknowledgement. -/

/-- Names of the customer-support registry, in declaration order. -/
def customerSupportToolNames : List String :=
  ["claim_refund", "speak_to_representative",
   "get_voucher_status", "insert_daily_report"]

/-- Names of the generic registry, in declaration order. -/
def availableToolNames : List String :=
  ["claim_refund", "speak_to_representative"]

/-! ### The dispatcher (source lines 173 to 276) -/

/-- One function-call request from the model, as delivered in the toolcall
event: an opaque correlation id, the tool name, and the argument value. -/
structure FunctionCallRequest where
  id : String
  name : String
  args : JVal
deriving Repr, DecidableEq

/-- The response member of a result entry; result is the JSON-encoded
payload string. -/
structure FunctionResponseBody where
  result : String
deriving Repr, DecidableEq

/-- One entry of the batch handed to sendToolResponse. -/
structure FunctionCallResult where
  id : String
  name : String
  response : FunctionResponseBody
deriving Repr, DecidableEq

/-- The structured payload the branch on the request name produces for one
request (source lines 190 to 236): the matching handler's result, the fixed
error object when that handler threw, or the default acknowledgement for
every unrecognised name. -/
def handlerOutput (now : Nat) (fc : FunctionCallRequest) : JVal :=
  if fc.name = "get_voucher_status" then
    match fetchVoucherStatus fc.args with
    | .ok v => v
    | .error _ =>
        .obj [("error", .str "An error occurred while fetching the voucher status.")]
  else if fc.name = "insert_daily_report" then
    match submitDailyReport now fc.args with
    | .ok v => v
    | .error _ =>
        .obj [("error", .str "An error occurred while submitting the daily report.")]
  else
    .obj [("result", .str "ok")]

/-- The simulated latency of the branch serving a request name: the two real
handlers suspend on an 800 ms and a 600 ms timer before doing anything
observable, while the fallback branch never suspends at all. -/
def handlerDelayMs (name : String) : Nat :=
  if name = "get_voucher_status" then 800
  else if name = "insert_daily_report" then 600
  else 0

/-- The order in which the concurrent Promise.all branches push into the
shared functionResponses array. Each branch of the map is an async arrow
function: a fallback branch has no await, so it pushes synchronously while
the map itself still runs; a branch with a real handler suspends on that
handler's setTimeout and pushes when the timer fires. Timers registered in
the same turn fire in delay order, equal delays in registration order, so
the pushes appear bucketed by delay (0, then 600, then 800 ms), each bucket
keeping request order. -/
def dispatchOrder (reqs : List FunctionCallRequest) : List FunctionCallRequest :=
  reqs.filter (fun fc => handlerDelayMs fc.name = 0)
    ++ reqs.filter (fun fc => handlerDelayMs fc.name = 600)
    ++ reqs.filter (fun fc => handlerDelayMs fc.name = 800)

/-- The result entry one request contributes (source lines 240 to 244): the
request id and name echoed back, and the handler output JSON-stringified
into response.result. -/
def processRequest (now : Nat) (fc : FunctionCallRequest) : FunctionCallResult :=
  { id := fc.id, name := fc.name
    response := { result := serJSON (handlerOutput now fc) } }

/-- The functionResponses batch that onToolCall hands to sendToolResponse
for one toolcall event: one entry per request, accumulated in the
event-loop push order that dispatchOrder reproduces. now is the millisecond
clock the report handler observes during the batch. -/
def onToolCall (now : Nat) (reqs : List FunctionCallRequest) :
    List FunctionCallResult :=
  (dispatchOrder reqs).map (processRequest now)

/-! ### Lemmas: the decimal codec -/

theorem decDigit_isDig (k : Nat) (h : k < 10) : isDig (decDigit k) = true := by
  interval_cases k <;> decide

theorem decDigit_val (k : Nat) (h : k < 10) : digVal (decDigit k) = k := by
  interval_cases k <;> decide

theorem natChars_all_digits (n : Nat) : ∀ c ∈ natChars n, isDig c = true := by
  induction n using Nat.strongRecOn with
  | _ n ih =>
    rw [natChars]
    by_cases h : n < 10
    · simp only [if_pos h, List.mem_singleton]
      rintro c rfl
      exact decDigit_isDig n h
    · simp only [if_neg h, List.mem_append, List.mem_singleton]
      rintro c (hc | rfl)
      · exact ih (n / 10) (by omega) c hc
      · exact decDigit_isDig _ (Nat.mod_lt _ (by omega))

theorem natChars_ne_nil (n : Nat) : natChars n ≠ [] := by
  rw [natChars]
  by_cases h : n < 10 <;> simp [h]

theorem natChars_head_digit (n : Nat) :
    ∃ c t, natChars n = c :: t ∧ isDig c = true := by
  match h : natChars n with
  | [] => exact absurd h (natChars_ne_nil n)
  | c :: t =>
      refine ⟨c, t, rfl, natChars_all_digits n c ?_⟩
      rw [h]
      exact List.mem_cons_self c t

theorem digitsVal_natChars (n : Nat) : digitsVal (natChars n) = n := by
  induction n using Nat.strongRecOn with
  | _ n ih =>
    rw [natChars]
    by_cases h : n < 10
    · simp [if_pos h, digitsVal, decDigit_val n h]
    · have hrec := ih (n / 10) (by omega)
      simp only [if_neg h, digitsVal, List.foldl_append, List.foldl_cons,
        List.foldl_nil] at hrec ⊢
      rw [hrec, decDigit_val _ (Nat.mod_lt _ (by omega))]
      omega

theorem grabDigits_boundary {cs : List Char} (h : digitBoundary cs = true) :
    grabDigits cs = ([], cs) := by
  match cs with
  | [] => rfl
  | c :: t =>
      simp only [digitBoundary, Bool.not_eq_true'] at h
      simp [grabDigits, h]

theorem grabDigits_run (ds : List Char) (hds : ∀ c ∈ ds, isDig c = true)
    (rest : List Char) (hrest : digitBoundary rest = true) :
    grabDigits (ds ++ rest) = (ds, rest) := by
  induction ds with
  | nil => simpa using grabDigits_boundary hrest
  | cons c t ih =>
      have hc : isDig c = true := hds c (List.mem_cons_self c t)
      have ht := ih (fun x hx => hds x (List.mem_cons_of_mem c hx))
      simp [grabDigits, hc, ht]

theorem readNat_natChars (n : Nat) (rest : List Char)
    (hrest : digitBoundary rest = true) :
    readNat (natChars n ++ rest) = some (n, rest) := by
  have hrun := grabDigits_run (natChars n) (natChars_all_digits n) rest hrest
  rw [readNat, hrun]
  have hne := natChars_ne_nil n
  match h : natChars n with
  | [] => exact absurd h hne
  | c :: t => simp [← h, digitsVal_natChars n]

theorem natChars_inj {a b : Nat} (h : natChars a = natChars b) : a = b := by
  have := digitsVal_natChars a
  rw [h, digitsVal_natChars b] at this
  omega

/-! ### Lemmas: the string codec -/

theorem hexVal_hexDigit (k : Nat) (h : k < 16) : hexVal (hexDigit k) = some k := by
  interval_cases k <;> decide

theorem readStr_esc (c : Char) (acc rest : List Char) :
    readStr acc (escJChar c ++ rest) = readStr (c :: acc) rest := by
  by_cases h1 : c = '"'
  · subst h1; rw [escJChar]; simp only [if_pos rfl]; rw [readStr.eq_def]; simp
  by_cases h2 : c = '\\'
  · subst h2
    rw [escJChar]
    simp only [if_neg h1, if_pos rfl]
    rw [readStr.eq_def]
    simp
  by_cases h3 : c = Char.ofNat 8
  · subst h3
    rw [escJChar]
    simp only [if_neg h1, if_neg h2, if_pos rfl]
    rw [readStr.eq_def]
    simp
  by_cases h4 : c = Char.ofNat 9
  · subst h4
    rw [escJChar]
    simp only [if_neg h1, if_neg h2, if_neg h3, if_pos rfl]
    rw [readStr.eq_def]
    simp
  by_cases h5 : c = Char.ofNat 10
  · subst h5
    rw [escJChar]
    simp only [if_neg h1, if_neg h2, if_neg h3, if_neg h4, if_pos rfl]
    rw [readStr.eq_def]
    simp
  by_cases h6 : c = Char.ofNat 12
  · subst h6
    rw [escJChar]
    simp only [if_neg h1, if_neg h2, if_neg h3, if_neg h4, if_neg h5, if_pos rfl]
    rw [readStr.eq_def]
    simp
  by_cases h7 : c = Char.ofNat 13
  · subst h7
    rw [escJChar]
    simp only [if_neg h1, if_neg h2, if_neg h3, if_neg h4, if_neg h5, if_neg h6,
      if_pos rfl]
    rw [readStr.eq_def]
    simp
  by_cases h8 : c.toNat < 32
  · have e1 := hexVal_hexDigit (c.toNat / 4096 % 16) (by omega)
    have e2 := hexVal_hexDigit (c.toNat / 256 % 16) (by omega)
    have e3 := hexVal_hexDigit (c.toNat / 16 % 16) (by omega)
    have e4 := hexVal_hexDigit (c.toNat % 16) (by omega)
    have harith : ((c.toNat / 4096 % 16 * 16 + c.toNat / 256 % 16) * 16
        + c.toNat / 16 % 16) * 16 + c.toNat % 16 = c.toNat := by omega
    rw [escJChar]
    simp only [if_neg h1, if_neg h2, if_neg h3, if_neg h4, if_neg h5, if_neg h6,
      if_neg h7, if_pos h8, List.cons_append, List.nil_append]
    rw [readStr.eq_def]
    simp [e1, e2, e3, e4, harith, Char.ofNat_toNat]
  · rw [escJChar]
    simp only [if_neg h1, if_neg h2, if_neg h3, if_neg h4, if_neg h5, if_neg h6,
      if_neg h7, if_neg h8, List.cons_append, List.nil_append]
    rw [readStr.eq_def]
    simp [h1, h2]

theorem readStr_flat (cs : List Char) : ∀ (acc rest : List Char),
    readStr acc (cs.flatMap escJChar ++ '"' :: rest)
      = some (String.mk (acc.reverse ++ cs), rest) := by
  induction cs with
  | nil =>
      intro acc rest
      rw [List.flatMap_nil, List.nil_append, readStr.eq_def]
      simp
  | cons c cs ih =>
      intro acc rest
      rw [List.flatMap_cons, List.append_assoc, readStr_esc, ih]
      simp

theorem readStr_serStr (s : String) (rest : List Char) :
    readStr [] (s.data.flatMap escJChar ++ '"' :: rest) = some (s, rest) := by
  rw [readStr_flat]
  simp

/-! ### Lemmas: shape facts feeding the round-trip induction -/

theorem jsize_pos (v : JVal) : 1 ≤ jsize v := by
  cases v <;> simp [jsize]

theorem jsizeL_pos_of_ne_nil {es : List JVal} (h : es ≠ []) : 1 ≤ jsizeL es := by
  cases es with
  | nil => exact absurd rfl h
  | cons v vs => simp [jsizeL]; omega

theorem jsizeF_pos_of_ne_nil {fs : List (String × JVal)} (h : fs ≠ []) :
    1 ≤ jsizeF fs := by
  cases fs with
  | nil => exact absurd rfl h
  | cons p fs =>
      obtain ⟨k, v⟩ := p
      simp [jsizeF]
      omega

theorem pure_not_undef {v : JVal} (h : jsonPure v = true) : isUndef v = false := by
  cases v <;> simp_all [jsonPure, isUndef]

theorem digit_avoid {c : Char} (h : isDig c = true) :
    c ≠ 'n' ∧ c ≠ 't' ∧ c ≠ 'f' ∧ c ≠ '"' ∧ c ≠ '[' ∧ c ≠ '{' ∧ c ≠ '-'
    ∧ c ≠ ']' ∧ c ≠ '}' ∧ c ≠ ',' ∧ c ≠ ':' := by
  refine ⟨?_, ?_, ?_, ?_, ?_, ?_, ?_, ?_, ?_, ?_, ?_⟩ <;>
    (rintro rfl; exact absurd h (by decide))

theorem ser_head (v : JVal) : ∃ c t, ser v = c :: t ∧ c ≠ ']' ∧ c ≠ '}' := by
  cases v with
  | str s =>
      exact ⟨'"', s.data.flatMap escJChar ++ ['"'], by simp [ser, serStr],
             by decide, by decide⟩
  | num n =>
      by_cases hn : n < 0
      · refine ⟨'-', natChars n.natAbs, ?_, by decide, by decide⟩
        simp [ser, intChars, hn]
      · obtain ⟨d, t, hd, hdig⟩ := natChars_head_digit n.natAbs
        obtain ⟨_, _, _, _, _, _, _, hr1, hr2, _, _⟩ := digit_avoid hdig
        refine ⟨d, t, ?_, hr1, hr2⟩
        simp [ser, intChars, hn, hd]
  | bool b =>
      cases b
      · exact ⟨'f', ['a', 'l', 's', 'e'], by simp [ser], by decide, by decide⟩
      · exact ⟨'t', ['r', 'u', 'e'], by simp [ser], by decide, by decide⟩
  | null => exact ⟨'n', ['u', 'l', 'l'], by simp [ser], by decide, by decide⟩
  | undef => exact ⟨'n', ['u', 'l', 'l'], by simp [ser], by decide, by decide⟩
  | arr es => exact ⟨'[', serElems es ++ [']'], by simp [ser], by decide, by decide⟩
  | obj fs => exact ⟨'{', serMembers fs ++ ['}'], by simp [ser], by decide, by decide⟩

theorem serElems_cons_of_ne_nil (v : JVal) {vs : List JVal} (h : vs ≠ []) :
    serElems (v :: vs) = ser v ++ ',' :: serElems vs := by
  cases vs with
  | nil => exact absurd rfl h
  | cons w ws => rfl

theorem serMembers_cons_pure (k : String) (v : JVal)
    (fs : List (String × JVal)) (hv : jsonPure v = true) :
    serMembers ((k, v) :: fs) = serStr k ++ ':' :: (ser v ++ serMembersTail fs) := by
  rw [serMembers, pure_not_undef hv]
  simp

theorem serMembersTail_pure {fs : List (String × JVal)}
    (h : jsonPureF fs = true) (hne : fs ≠ []) :
    serMembersTail fs = ',' :: serMembers fs := by
  cases fs with
  | nil => exact absurd rfl hne
  | cons p fs2 =>
      obtain ⟨k, v⟩ := p
      have hv : jsonPure v = true := by
        simp [jsonPureF, Bool.and_eq_true] at h
        exact h.1
      rw [serMembersTail, serMembers, pure_not_undef hv]
      simp

/-! ### The codec round trip -/

theorem digitBoundary_cons (c : Char) (t : List Char) (h : isDig c = false) :
    digitBoundary (c :: t) = true := by
  simp [digitBoundary, h]

theorem jparse_ser_aux : ∀ fuel : Nat,
    (∀ v : JVal, jsonPure v = true → jsize v ≤ fuel → ∀ rest : List Char,
       digitBoundary rest = true → jparse fuel (ser v ++ rest) = some (v, rest))
    ∧ (∀ es : List JVal, jsonPureL es = true → es ≠ [] → jsizeL es ≤ fuel →
       ∀ rest : List Char,
       jparseElems fuel (serElems es ++ ']' :: rest) = some (es, rest))
    ∧ (∀ fs : List (String × JVal), jsonPureF fs = true → fs ≠ [] →
       jsizeF fs ≤ fuel → ∀ rest : List Char,
       jparseMembers fuel (serMembers fs ++ '}' :: rest) = some (fs, rest)) := by
  intro fuel
  induction fuel with
  | zero =>
      refine ⟨fun v _ hs => absurd hs (by have := jsize_pos v; omega),
              fun es _ hne hs => absurd hs (by have := jsizeL_pos_of_ne_nil hne; omega),
              fun fs _ hne hs => absurd hs (by have := jsizeF_pos_of_ne_nil hne; omega)⟩
  | succ f ih =>
      obtain ⟨ihV, ihE, ihM⟩ := ih
      refine ⟨?_, ?_, ?_⟩
      · -- a single value
        intro v hpure hsize rest hrest
        cases v with
        | str s =>
            rw [show ser (JVal.str s) ++ rest
                = '"' :: (s.data.flatMap escJChar ++ '"' :: rest) from by
              simp [ser, serStr]]
            simp only [jparse]
            rw [readStr_serStr]
            simp
        | num n =>
            by_cases hn : n < 0
            · rw [show ser (JVal.num n) ++ rest
                  = '-' :: (natChars n.natAbs ++ rest) from by
                simp [ser, intChars, hn]]
              simp only [jparse]
              rw [readNat_natChars _ _ hrest]
              have habs : ((n.natAbs : Nat) : Int) = -n :=
                Int.ofNat_natAbs_of_nonpos (le_of_lt hn)
              simp [habs]
            · obtain ⟨d, t, hd, hdig⟩ := natChars_head_digit n.natAbs
              obtain ⟨hn1, ht1, hf1, hq1, hbk1, hbc1, hm1, _, _, _, _⟩ :=
                digit_avoid hdig
              rw [show ser (JVal.num n) ++ rest = d :: (t ++ rest) from by
                simp [ser, intChars, hn, hd]]
              simp only [jparse]
              rw [if_neg hn1, if_neg ht1, if_neg hf1, if_neg hq1, if_neg hbk1,
                if_neg hbc1, if_neg hm1, if_pos hdig]
              rw [show d :: (t ++ rest) = natChars n.natAbs ++ rest from by
                rw [hd]; simp]
              rw [readNat_natChars _ _ hrest]
              have habs : ((n.natAbs : Nat) : Int) = n :=
                Int.natAbs_of_nonneg (by omega)
              simp [habs]
        | bool b =>
            cases b
            · rw [show ser (JVal.bool false) ++ rest
                  = 'f' :: 'a' :: 'l' :: 's' :: 'e' :: rest from by simp [ser]]
              simp [jparse]
            · rw [show ser (JVal.bool true) ++ rest
                  = 't' :: 'r' :: 'u' :: 'e' :: rest from by simp [ser]]
              simp [jparse]
        | null =>
            rw [show ser JVal.null ++ rest = 'n' :: 'u' :: 'l' :: 'l' :: rest
              from by simp [ser]]
            simp [jparse]
        | undef => simp [jsonPure] at hpure
        | arr es =>
            cases es with
            | nil =>
                rw [show ser (JVal.arr []) ++ rest = '[' :: ']' :: rest from by
                  simp [ser, serElems]]
                simp [jparse]
            | cons e es2 =>
                obtain ⟨c2, t2, hc2, hc2r, _⟩ := ser_head e
                have hpureL : jsonPureL (e :: es2) = true := by
                  simpa [jsonPure] using hpure
                have hsizeL : jsizeL (e :: es2) ≤ f := by
                  simp [jsize] at hsize
                  omega
                have hdec : ∃ Y, serElems (e :: es2) ++ ']' :: rest = c2 :: Y := by
                  cases es2 with
                  | nil => exact ⟨t2 ++ ']' :: rest, by simp [serElems, hc2]⟩
                  | cons e2 es3 =>
                      refine ⟨t2 ++ (',' :: serElems (e2 :: es3) ++ ']' :: rest), ?_⟩
                      rw [serElems_cons_of_ne_nil e (by simp), hc2]
                      simp
                obtain ⟨Y, hY⟩ := hdec
                rw [show ser (JVal.arr (e :: es2)) ++ rest
                    = '[' :: (serElems (e :: es2) ++ ']' :: rest) from by
                  simp [ser]]
                simp only [jparse]
                rw [hY]
                simp only [reduceIte, Char.reduceEq, if_neg hc2r]
                rw [← hY, ihE (e :: es2) hpureL (by simp) hsizeL rest]
        | obj fs =>
            cases fs with
            | nil =>
                rw [show ser (JVal.obj []) ++ rest = '{' :: '}' :: rest from by
                  simp [ser, serMembers]]
                simp [jparse]
            | cons p fs2 =>
                obtain ⟨k, v⟩ := p
                have hpureF : jsonPureF ((k, v) :: fs2) = true := by
                  simpa [jsonPure] using hpure
                have hkv := hpureF
                simp only [jsonPureF, Bool.and_eq_true] at hkv
                obtain ⟨hv, _⟩ := hkv
                have hsizeF : jsizeF ((k, v) :: fs2) ≤ f := by
                  simp [jsize] at hsize
                  omega
                have hdec : ∃ Y, serMembers ((k, v) :: fs2) ++ '}' :: rest
                    = '"' :: Y := by
                  refine ⟨(k.data.flatMap escJChar ++ ['"'])
                    ++ (':' :: (ser v ++ serMembersTail fs2) ++ '}' :: rest), ?_⟩
                  rw [serMembers_cons_pure k v fs2 hv]
                  simp [serStr]
                obtain ⟨Y, hY⟩ := hdec
                rw [show ser (JVal.obj ((k, v) :: fs2)) ++ rest
                    = '{' :: (serMembers ((k, v) :: fs2) ++ '}' :: rest) from by
                  simp [ser]]
                simp only [jparse]
                rw [hY]
                simp only [reduceIte, Char.reduceEq]
                rw [← hY, ihM ((k, v) :: fs2) hpureF (by simp) hsizeF rest]
      · -- a nonempty element list
        intro es hpure hne hsize rest
        cases es with
        | nil => exact absurd rfl hne
        | cons e es2 =>
            have hp := hpure
            simp only [jsonPureL, Bool.and_eq_true] at hp
            obtain ⟨hpe, hpes⟩ := hp
            have hse : jsize e ≤ f := by
              simp [jsizeL] at hsize
              omega
            cases es2 with
            | nil =>
                rw [show serElems [e] ++ ']' :: rest = ser e ++ ']' :: rest from by
                  simp [serElems]]
                simp [jparseElems,
                  ihV e hpe hse (']' :: rest) (digitBoundary_cons _ _ (by decide))]
            | cons e2 es3 =>
                have hses2 : jsizeL (e2 :: es3) ≤ f := by
                  have := jsize_pos e
                  obtain ⟨k2⟩ := e2 <;>
                    (simp [jsizeL] at hsize ⊢) <;> omega
                rw [show serElems (e :: e2 :: es3) ++ ']' :: rest
                    = ser e ++ (',' :: (serElems (e2 :: es3) ++ ']' :: rest)) from by
                  rw [serElems_cons_of_ne_nil e (by simp)]
                  simp]
                simp [jparseElems,
                  ihV e hpe hse (',' :: (serElems (e2 :: es3) ++ ']' :: rest))
                    (digitBoundary_cons _ _ (by decide)),
                  ihE (e2 :: es3) hpes (by simp) hses2 rest]
      · -- a nonempty member list
        intro fs hpure hne hsize rest
        cases fs with
        | nil => exact absurd rfl hne
        | cons p fs2 =>
            obtain ⟨k, v⟩ := p
            have hp := hpure
            simp only [jsonPureF, Bool.and_eq_true] at hp
            obtain ⟨hpv, hpfs⟩ := hp
            have hsv : jsize v ≤ f := by
              simp [jsizeF] at hsize
              omega
            cases fs2 with
            | nil =>
                rw [show serMembers [(k, v)] ++ '}' :: rest
                    = '"' :: (k.data.flatMap escJChar
                        ++ '"' :: (':' :: (ser v ++ '}' :: rest))) from by
                  rw [serMembers_cons_pure k v [] hpv]
                  simp [serStr, serMembersTail]]
                simp [jparseMembers, readStr_serStr,
                  ihV v hpv hsv ('}' :: rest) (digitBoundary_cons _ _ (by decide))]
            | cons q fs3 =>
                have hsfs2 : jsizeF (q :: fs3) ≤ f := by
                  have := jsize_pos v
                  simp [jsizeF] at hsize
                  obtain ⟨k2, v2⟩ := q
                  simp [jsizeF] at hsize ⊢
                  omega
                rw [show serMembers ((k, v) :: q :: fs3) ++ '}' :: rest
                    = '"' :: (k.data.flatMap escJChar ++ '"' :: (':' :: (ser v
                        ++ (',' :: (serMembers (q :: fs3) ++ '}' :: rest))))) from by
                  rw [serMembers_cons_pure k v (q :: fs3) hpv,
                    serMembersTail_pure hpfs (by simp)]
                  simp [serStr]]
                simp [jparseMembers, readStr_serStr,
                  ihV v hpv hsv (',' :: (serMembers (q :: fs3) ++ '}' :: rest))
                    (digitBoundary_cons _ _ (by decide)),
                  ihM (q :: fs3) hpfs (by simp) hsfs2 rest]

theorem jsize_le_ser_aux : ∀ (n : Nat), ∀ v : JVal, sizeOf v ≤ n →
    jsonPure v = true → jsize v ≤ (ser v).length := by
  intro n
  induction n with
  | zero => intro v h _; exact absurd h (by cases v <;> simp)
  | succ n ih =>
    intro v hsz hpure
    have harr : ∀ es : List JVal, (∀ x ∈ es, sizeOf x ≤ n) → jsonPureL es = true →
        jsizeL es ≤ (serElems es).length + 1 := by
      intro es
      induction es with
      | nil => intro _ _; simp [jsizeL, serElems]
      | cons e es2 ihe =>
        intro hs hp
        simp only [jsonPureL, Bool.and_eq_true] at hp
        have he := ih e (hs e (by simp)) hp.1
        cases es2 with
        | nil =>
            simp [jsizeL, serElems]
            omega
        | cons e2 es3 =>
            have ht := ihe (fun x hx => hs x (by simp [hx])) hp.2
            rw [serElems_cons_of_ne_nil e (by simp)]
            simp only [jsizeL] at ht ⊢
            simp only [List.length_append, List.length_cons] at ht ⊢
            omega
    have hobj : ∀ fs : List (String × JVal), (∀ p ∈ fs, sizeOf p.2 ≤ n) →
        jsonPureF fs = true → jsizeF fs ≤ (serMembers fs).length + 1 := by
      intro fs
      induction fs with
      | nil => intro _ _; simp [jsizeF, serMembers]
      | cons p fs2 ihf =>
        obtain ⟨k, v⟩ := p
        intro hs hp
        simp only [jsonPureF, Bool.and_eq_true] at hp
        have hv := ih v (hs (k, v) (by simp)) hp.1
        have ht := ihf (fun x hx => hs x (by simp [hx])) hp.2
        rw [serMembers_cons_pure k v fs2 hp.1]
        cases fs2 with
        | nil =>
            simp [jsizeF, serMembersTail]
            omega
        | cons q fs3 =>
            rw [serMembersTail_pure hp.2 (by simp)]
            simp only [jsizeF] at ht ⊢
            obtain ⟨k2, v2⟩ := q
            simp only [jsizeF] at ht ⊢
            simp only [List.length_append, List.length_cons] at ht ⊢
            omega
    cases v with
    | str s => simp [jsize, ser, serStr]
    | num nn =>
        have h1 : 0 < (natChars nn.natAbs).length :=
          List.length_pos.mpr (natChars_ne_nil _)
        by_cases hn : nn < 0 <;> simp [jsize, ser, intChars, hn] <;> omega
    | bool b => cases b <;> simp [jsize, ser]
    | null => simp [jsize, ser]
    | undef => simp [jsonPure] at hpure
    | arr es =>
        have hes : ∀ x ∈ es, sizeOf x ≤ n := by
          intro x hx
          have := List.sizeOf_lt_of_mem hx
          simp at hsz
          omega
        have := harr es hes (by simpa [jsonPure] using hpure)
        simp [jsize, ser, List.length_append]
        omega
    | obj fs =>
        have hfs : ∀ p ∈ fs, sizeOf p.2 ≤ n := by
          intro p hp
          have h1 := List.sizeOf_lt_of_mem hp
          obtain ⟨k, v⟩ := p
          simp at hsz h1 ⊢
          omega
        have := hobj fs hfs (by simpa [jsonPure] using hpure)
        simp [jsize, ser, List.length_append]
        omega

theorem jsize_le_ser (v : JVal) (h : jsonPure v = true) :
    jsize v ≤ (ser v).length :=
  jsize_le_ser_aux (sizeOf v) v le_rfl h

/-- JSON.parse undoes JSON.stringify on every undefined-free value: the
round trip the dispatcher relies on at the wire boundary. -/
theorem parseJSON_serJSON (v : JVal) (h : jsonPure v = true) :
    parseJSON (serJSON v) = some v := by
  have hfuel : jsize v ≤ (ser v).length + 1 := le_trans (jsize_le_ser v h) (by omega)
  have hparse := (jparse_ser_aux ((ser v).length + 1)).1 v h hfuel [] rfl
  rw [List.append_nil] at hparse
  have hlen : (serJSON v).length = (ser v).length := rfl
  have hdata : (serJSON v).data = ser v := rfl
  rw [parseJSON, hlen, hdata, hparse]

/-! ### Lemmas: the handlers and the dispatcher -/

theorem fetch_payloads {args v : JVal} (h : fetchVoucherStatus args = .ok v) :
    v = activeVoucherPayload ∨ v = expiredVoucherPayload
    ∨ v = activeLoyaltyPayload ∨ v = redeemedLoyaltyPayload
    ∨ v = notFoundPayload := by
  simp only [fetchVoucherStatus, bind, Except.bind, pure, Except.pure] at h
  repeat' split at h
  all_goals simp_all

theorem submit_payloads {now : Nat} {args v : JVal}
    (h : submitDailyReport now args = .ok v) :
    v = invalidReportPayload ∨ v = reportSuccessPayload now args := by
  simp only [submitDailyReport, bind, Except.bind, pure, Except.pure] at h
  repeat' split at h
  all_goals simp_all

theorem handlerOutput_pure (now : Nat) (fc : FunctionCallRequest)
    (h : jsonPure fc.args = true) :
    jsonPure (handlerOutput now fc) = true := by
  rw [handlerOutput]
  split_ifs with h1 h2
  · cases hh : fetchVoucherStatus fc.args with
    | ok v =>
        rcases fetch_payloads hh with rfl | rfl | rfl | rfl | rfl <;> decide
    | error e => simp [jsonPure, jsonPureF]
  · cases hh : submitDailyReport now fc.args with
    | ok v =>
        rcases submit_payloads hh with rfl | rfl
        · decide
        · simp [reportSuccessPayload, jsonPure, jsonPureF, h]
    | error e => simp [jsonPure, jsonPureF]
  · decide

theorem handlerDelayMs_cases (name : String) :
    handlerDelayMs name = 0 ∨ handlerDelayMs name = 600
    ∨ handlerDelayMs name = 800 := by
  rw [handlerDelayMs]
  split_ifs <;> simp

theorem dispatchOrder_perm (reqs : List FunctionCallRequest) :
    (dispatchOrder reqs).Perm reqs := by
  induction reqs with
  | nil => simp [dispatchOrder]
  | cons r rs ih =>
      rcases handlerDelayMs_cases r.name with h | h | h
      · have e0 : (r :: rs).filter (fun fc => handlerDelayMs fc.name = 0)
            = r :: rs.filter (fun fc => handlerDelayMs fc.name = 0) := by
          simp [List.filter_cons, h]
        have e6 : (r :: rs).filter (fun fc => handlerDelayMs fc.name = 600)
            = rs.filter (fun fc => handlerDelayMs fc.name = 600) := by
          simp [List.filter_cons, h]
        have e8 : (r :: rs).filter (fun fc => handlerDelayMs fc.name = 800)
            = rs.filter (fun fc => handlerDelayMs fc.name = 800) := by
          simp [List.filter_cons, h]
        rw [dispatchOrder, e0, e6, e8, List.cons_append, List.cons_append]
        exact ih.cons r
      · have e0 : (r :: rs).filter (fun fc => handlerDelayMs fc.name = 0)
            = rs.filter (fun fc => handlerDelayMs fc.name = 0) := by
          simp [List.filter_cons, h]
        have e6 : (r :: rs).filter (fun fc => handlerDelayMs fc.name = 600)
            = r :: rs.filter (fun fc => handlerDelayMs fc.name = 600) := by
          simp [List.filter_cons, h]
        have e8 : (r :: rs).filter (fun fc => handlerDelayMs fc.name = 800)
            = rs.filter (fun fc => handlerDelayMs fc.name = 800) := by
          simp [List.filter_cons, h]
        rw [dispatchOrder, e0, e6, e8,
          show rs.filter (fun fc => handlerDelayMs fc.name = 0)
              ++ (r :: rs.filter (fun fc => handlerDelayMs fc.name = 600))
              ++ rs.filter (fun fc => handlerDelayMs fc.name = 800)
            = rs.filter (fun fc => handlerDelayMs fc.name = 0)
              ++ r :: (rs.filter (fun fc => handlerDelayMs fc.name = 600)
              ++ rs.filter (fun fc => handlerDelayMs fc.name = 800)) from by simp]
        refine List.Perm.trans List.perm_middle (List.Perm.cons r ?_)
        simpa [dispatchOrder, List.append_assoc] using ih
      · have e0 : (r :: rs).filter (fun fc => handlerDelayMs fc.name = 0)
            = rs.filter (fun fc => handlerDelayMs fc.name = 0) := by
          simp [List.filter_cons, h]
        have e6 : (r :: rs).filter (fun fc => handlerDelayMs fc.name = 600)
            = rs.filter (fun fc => handlerDelayMs fc.name = 600) := by
          simp [List.filter_cons, h]
        have e8 : (r :: rs).filter (fun fc => handlerDelayMs fc.name = 800)
            = r :: rs.filter (fun fc => handlerDelayMs fc.name = 800) := by
          simp [List.filter_cons, h]
        rw [dispatchOrder, e0, e6, e8]
        exact List.Perm.trans List.perm_middle (ih.cons r)

theorem filter_eq_nil_of_delay_ge {rs : List FunctionCallRequest} {d k : Nat}
    (hk : k < d)
    (hall : ∀ x ∈ rs, d ≤ handlerDelayMs x.name) :
    rs.filter (fun fc => handlerDelayMs fc.name = k) = [] := by
  rw [List.filter_eq_nil_iff]
  intro x hx
  have := hall x hx
  simp
  omega

theorem dispatchOrder_sorted (reqs : List FunctionCallRequest)
    (hsort : List.Pairwise
      (fun a b => handlerDelayMs a.name ≤ handlerDelayMs b.name) reqs) :
    dispatchOrder reqs = reqs := by
  induction reqs with
  | nil => rfl
  | cons r rs ih =>
      rw [List.pairwise_cons] at hsort
      obtain ⟨hr, hrs⟩ := hsort
      have ihe : rs.filter (fun fc => handlerDelayMs fc.name = 0)
          ++ rs.filter (fun fc => handlerDelayMs fc.name = 600)
          ++ rs.filter (fun fc => handlerDelayMs fc.name = 800) = rs := ih hrs
      rcases handlerDelayMs_cases r.name with h | h | h
      · have e0 : (r :: rs).filter (fun fc => handlerDelayMs fc.name = 0)
            = r :: rs.filter (fun fc => handlerDelayMs fc.name = 0) := by
          simp [List.filter_cons, h]
        have e6 : (r :: rs).filter (fun fc => handlerDelayMs fc.name = 600)
            = rs.filter (fun fc => handlerDelayMs fc.name = 600) := by
          simp [List.filter_cons, h]
        have e8 : (r :: rs).filter (fun fc => handlerDelayMs fc.name = 800)
            = rs.filter (fun fc => handlerDelayMs fc.name = 800) := by
          simp [List.filter_cons, h]
        rw [dispatchOrder, e0, e6, e8, List.cons_append, List.cons_append, ihe]
      · have hge : ∀ x ∈ rs, 600 ≤ handlerDelayMs x.name := by
          intro x hx
          have := hr x hx
          omega
        have h0 : rs.filter (fun fc => handlerDelayMs fc.name = 0) = [] :=
          filter_eq_nil_of_delay_ge (by omega) hge
        have e0 : (r :: rs).filter (fun fc => handlerDelayMs fc.name = 0)
            = [] := by
          simp [List.filter_cons, h, h0]
        have e6 : (r :: rs).filter (fun fc => handlerDelayMs fc.name = 600)
            = r :: rs.filter (fun fc => handlerDelayMs fc.name = 600) := by
          simp [List.filter_cons, h]
        have e8 : (r :: rs).filter (fun fc => handlerDelayMs fc.name = 800)
            = rs.filter (fun fc => handlerDelayMs fc.name = 800) := by
          simp [List.filter_cons, h]
        rw [dispatchOrder, e0, e6, e8]
        rw [h0] at ihe
        simpa using ihe
      · have hge : ∀ x ∈ rs, 800 ≤ handlerDelayMs x.name := by
          intro x hx
          have := hr x hx
          omega
        have h0 : rs.filter (fun fc => handlerDelayMs fc.name = 0) = [] :=
          filter_eq_nil_of_delay_ge (by omega) hge
        have h6 : rs.filter (fun fc => handlerDelayMs fc.name = 600) = [] :=
          filter_eq_nil_of_delay_ge (by omega) hge
        have e0 : (r :: rs).filter (fun fc => handlerDelayMs fc.name = 0)
            = [] := by
          simp [List.filter_cons, h, h0]
        have e6 : (r :: rs).filter (fun fc => handlerDelayMs fc.name = 600)
            = [] := by
          simp [List.filter_cons, h, h6]
        have e8 : (r :: rs).filter (fun fc => handlerDelayMs fc.name = 800)
            = r :: rs.filter (fun fc => handlerDelayMs fc.name = 800) := by
          simp [List.filter_cons, h]
        rw [dispatchOrder, e0, e6, e8]
        rw [h0, h6] at ihe
        simpa using ihe

/-! ### The claims -/

/-- C1: a batch of N requests yields exactly N results; the result batch is
a permutation of the per-request results, and every request contributes the
entry that echoes its id and name and carries its handler output,
serialised — failures included, since handlerOutput is total. -/
theorem dispatcher_batch_complete (now : Nat) (reqs : List FunctionCallRequest) :
    (onToolCall now reqs).length = reqs.length
    ∧ (onToolCall now reqs).Perm (reqs.map (processRequest now))
    ∧ ∀ fc ∈ reqs, ∃ r ∈ onToolCall now reqs,
        r.id = fc.id ∧ r.name = fc.name
        ∧ r.response.result = serJSON (handlerOutput now fc) := by
  have hperm : (onToolCall now reqs).Perm (reqs.map (processRequest now)) :=
    (dispatchOrder_perm reqs).map (processRequest now)
  refine ⟨?_, hperm, ?_⟩
  · rw [hperm.length_eq, List.length_map]
  · intro fc hfc
    exact ⟨processRequest now fc,
      hperm.mem_iff.mpr (List.mem_map_of_mem _ hfc), rfl, rfl, rfl⟩

/-- C2 counterexample: a present-but-unknown voucherId does not force
not_found — with voucherId "nope" and a matching customerEmail the handler
falls through to the e-mail fixtures and returns the active loyalty
payload, whose status field is "active", not "not_found". -/
theorem voucher_precedence_cex :
    fetchVoucherStatus (.obj [("voucherId", .str "nope"),
        ("customerEmail", .str "active@example.com")])
      = .ok activeLoyaltyPayload
    ∧ jvField activeLoyaltyPayload "status" = .str "active"
    ∧ jvField notFoundPayload "status" = .str "not_found"
    ∧ activeLoyaltyPayload ≠ notFoundPayload := by
  refine ⟨by decide, by decide, by decide, by decide⟩

/-- C2 amended: voucherId is tried first and a successful match against
either known code decides the result regardless of customerEmail; but when
voucherId matches neither fixture the e-mail branch is still consulted —
the call behaves exactly as if only customerEmail had been passed, rather
than returning not_found. -/
theorem voucher_precedence_amended (s e : String) :
    (upperStr s = "VOUCHER123" →
      fetchVoucherStatus (.obj [("voucherId", .str s), ("customerEmail", .str e)])
        = .ok activeVoucherPayload)
    ∧ (upperStr s = "EXPIRED456" →
      fetchVoucherStatus (.obj [("voucherId", .str s), ("customerEmail", .str e)])
        = .ok expiredVoucherPayload)
    ∧ (upperStr s ≠ "VOUCHER123" → upperStr s ≠ "EXPIRED456" →
      fetchVoucherStatus (.obj [("voucherId", .str s), ("customerEmail", .str e)])
        = fetchVoucherStatus (.obj [("customerEmail", .str e)])) := by
  refine ⟨?_, ?_, ?_⟩
  · intro h
    have hne : s.isEmpty = false := by
      rcases hs : s.isEmpty with _ | _
      · rfl
      · rw [String.isEmpty_iff] at hs
        subst hs
        exact absurd h (by decide)
    simp [fetchVoucherStatus, jsProp, fieldValue, jsToUpperCase, truthy, hne,
      bind, Except.bind, pure, Except.pure, h]
  · intro h
    have hne : s.isEmpty = false := by
      rcases hs : s.isEmpty with _ | _
      · rfl
      · rw [String.isEmpty_iff] at hs
        subst hs
        exact absurd h (by decide)
    simp [fetchVoucherStatus, jsProp, fieldValue, jsToUpperCase, truthy, hne,
      bind, Except.bind, pure, Except.pure, h]
  · intro h1 h2
    by_cases hs : s = ""
    · subst hs
      simp [fetchVoucherStatus, jsProp, fieldValue, jsToUpperCase, truthy,
        bind, Except.bind, pure, Except.pure, h1, h2]
    · have hne : s.isEmpty = false := by
        rcases hs2 : s.isEmpty with _ | _
        · rfl
        · rw [String.isEmpty_iff] at hs2
          exact absurd hs2 hs
      simp [fetchVoucherStatus, jsProp, fieldValue, jsToUpperCase, truthy, hne,
        bind, Except.bind, pure, Except.pure, h1, h2]

/-- C2 witness: all three parts of the amendment at concrete inputs — the
unknown id "nope" next to a matching e-mail behaves like the e-mail alone,
and a casing of either known id wins no matter the e-mail. -/
theorem voucher_precedence_amended_witness :
    (fetchVoucherStatus (.obj [("voucherId", .str "nope"),
        ("customerEmail", .str "active@example.com")])
      = fetchVoucherStatus (.obj [("customerEmail", .str "active@example.com")]))
    ∧ fetchVoucherStatus (.obj [("voucherId", .str "voucher123"),
        ("customerEmail", .str "expired@example.com")])
      = .ok activeVoucherPayload
    ∧ fetchVoucherStatus (.obj [("voucherId", .str "expired456"),
        ("customerEmail", .str "active@example.com")])
      = .ok expiredVoucherPayload :=
  ⟨(voucher_precedence_amended "nope" "active@example.com").2.2
      (by decide) (by decide),
   (voucher_precedence_amended "voucher123" "expired@example.com").1 (by decide),
   (voucher_precedence_amended "expired456" "active@example.com").2.1 (by decide)⟩

/-- C3: case-insensitive fixture matching — any casing whose uppercase form
is VOUCHER123 yields the active voucher payload, any casing whose lowercase
form is active@example.com yields the active loyalty payload, and an empty
argument object yields the not-found payload. -/
theorem voucher_case_insensitive (s t : String) :
    (upperStr s = "VOUCHER123" →
      fetchVoucherStatus (.obj [("voucherId", .str s)]) = .ok activeVoucherPayload)
    ∧ (lowerStr t = "active@example.com" →
      fetchVoucherStatus (.obj [("customerEmail", .str t)]) = .ok activeLoyaltyPayload)
    ∧ fetchVoucherStatus (.obj []) = .ok notFoundPayload := by
  refine ⟨?_, ?_, by decide⟩
  · intro h
    have hne : s.isEmpty = false := by
      rcases hs : s.isEmpty with _ | _
      · rfl
      · rw [String.isEmpty_iff] at hs
        subst hs
        exact absurd h (by decide)
    simp [fetchVoucherStatus, jsProp, fieldValue, jsToUpperCase, truthy, hne,
      bind, Except.bind, pure, Except.pure, h]
  · intro h
    have hne : t.isEmpty = false := by
      rcases hs : t.isEmpty with _ | _
      · rfl
      · rw [String.isEmpty_iff] at hs
        subst hs
        exact absurd h (by decide)
    simp [fetchVoucherStatus, jsProp, fieldValue, jsToUpperCase, jsToLowerCase,
      truthy, hne, bind, Except.bind, pure, Except.pure, h]

/-- C3 witness: the three testable points — a mixed casing of voucher123, an
upper casing of the known e-mail, and the empty argument object. -/
theorem voucher_case_insensitive_witness :
    (fetchVoucherStatus (.obj [("voucherId", .str "vOuChEr123")])
       = .ok activeVoucherPayload)
    ∧ fetchVoucherStatus (.obj [("customerEmail", .str "ACTIVE@example.com")])
       = .ok activeLoyaltyPayload :=
  ⟨(voucher_case_insensitive "vOuChEr123" "x").1 (by decide),
   (voucher_case_insensitive "x" "ACTIVE@example.com").2.1 (by decide)⟩

/-- C4: insert_daily_report validates issuedVouchers — an absent or
non-numeric value or a negative number yields the error payload (whose
message field is the fixed validation message), and a non-negative number
yields the success payload with the time-derived report id, a nonempty id
string, and the argument object echoed back verbatim. -/
theorem daily_report_validation (now : Nat) (fields : List (String × JVal)) :
    jvField invalidReportPayload "message"
        = .str "Invalid number of issued vouchers."
    ∧ ((∀ n : Int, fieldValue fields "issuedVouchers" ≠ .num n) →
      submitDailyReport now (.obj fields) = .ok invalidReportPayload)
    ∧ (∀ n : Int, fieldValue fields "issuedVouchers" = .num n → n < 0 →
      submitDailyReport now (.obj fields) = .ok invalidReportPayload)
    ∧ (∀ n : Int, fieldValue fields "issuedVouchers" = .num n → 0 ≤ n →
      submitDailyReport now (.obj fields)
          = .ok (.obj [("status", .str "success"),
              ("message", .str ("Report successfully submitted with ID: "
                  ++ reportIdString now ++ ".")),
              ("reportId", .str (reportIdString now)),
              ("submittedData", .obj fields)])
        ∧ reportIdString now ≠ ""
        ∧ jvField (reportSuccessPayload now (.obj fields)) "submittedData"
            = .obj fields) := by
  refine ⟨by decide, ?_, ?_, ?_⟩
  · intro hnn
    cases hiv : fieldValue fields "issuedVouchers" <;>
      first
        | exact absurd hiv (hnn _)
        | simp [submitDailyReport, jsProp, hiv, isJsNumber, jsNumNeg, bind,
            Except.bind, pure, Except.pure]
  · intro n hiv hneg
    simp [submitDailyReport, jsProp, hiv, isJsNumber, jsNumNeg, hneg, bind,
      Except.bind, pure, Except.pure]
  · intro n hiv hpos
    refine ⟨?_, ?_, by simp [reportSuccessPayload, jvField, fieldValue]⟩
    · simp [submitDailyReport, jsProp, hiv, isJsNumber, jsNumNeg, bind,
        Except.bind, pure, Except.pure, reportSuccessPayload,
        show ¬(n < 0) from by omega]
    · intro hempty
      have hd := congrArg String.data hempty
      simp [reportIdString, natStr, String.data_append] at hd

/-- C4 witness: the three testable points — a negative count, an absent
count, and a valid count of five. -/
theorem daily_report_validation_witness :
    submitDailyReport 5 (.obj [("issuedVouchers", .num (-1))])
        = .ok invalidReportPayload
    ∧ submitDailyReport 5 (.obj []) = .ok invalidReportPayload
    ∧ reportIdString 5 ≠ ""
    ∧ submitDailyReport 5 (.obj [("issuedVouchers", .num 5)])
        = .ok (.obj [("status", .str "success"),
            ("message", .str ("Report successfully submitted with ID: "
                ++ reportIdString 5 ++ ".")),
            ("reportId", .str (reportIdString 5)),
            ("submittedData", .obj [("issuedVouchers", .num 5)])]) :=
  ⟨(daily_report_validation 5 [("issuedVouchers", .num (-1))]).2.2.1 (-1)
      (by decide) (by decide),
   (daily_report_validation 5 []).2.1 (fun n h => JVal.noConfusion h),
   ((daily_report_validation 5 [("issuedVouchers", .num 5)]).2.2.2 5
      (by decide) (by decide)).2.1,
   ((daily_report_validation 5 [("issuedVouchers", .num 5)]).2.2.2 5
      (by decide) (by decide)).1⟩

/-- C5: a handler that throws is contained — the dispatcher catches the
fault and produces the fixed error-object payload in that call's own
result entry, the batch still has one entry per request, and every other
request contributes its own well-formed entry. -/
theorem handler_fault_contained (now : Nat) (reqs : List FunctionCallRequest)
    (fc : FunctionCallRequest) (hmem : fc ∈ reqs)
    (hfault : (fc.name = "get_voucher_status"
        ∧ ∃ e, fetchVoucherStatus fc.args = .error e)
      ∨ (fc.name = "insert_daily_report"
        ∧ ∃ e, submitDailyReport now fc.args = .error e)) :
    (∃ msg : String, handlerOutput now fc = .obj [("error", .str msg)]
      ∧ ∃ r ∈ onToolCall now reqs, r.id = fc.id
        ∧ r.response.result = serJSON (.obj [("error", .str msg)]))
    ∧ (onToolCall now reqs).length = reqs.length
    ∧ ∀ g ∈ reqs, ∃ r ∈ onToolCall now reqs, r.id = g.id
        ∧ r.response.result = serJSON (handlerOutput now g) := by
  have hperm : (onToolCall now reqs).Perm (reqs.map (processRequest now)) :=
    (dispatchOrder_perm reqs).map (processRequest now)
  have hmemR : ∀ g ∈ reqs, processRequest now g ∈ onToolCall now reqs :=
    fun g hg => hperm.mem_iff.mpr (List.mem_map_of_mem _ hg)
  refine ⟨?_, by rw [hperm.length_eq, List.length_map], ?_⟩
  · rcases hfault with ⟨hname, e, herr⟩ | ⟨hname, e, herr⟩
    · refine ⟨"An error occurred while fetching the voucher status.", ?_, ?_⟩
      · simp [handlerOutput, hname, herr]
      · exact ⟨processRequest now fc, hmemR fc hmem, rfl,
          by simp [processRequest, handlerOutput, hname, herr]⟩
    · refine ⟨"An error occurred while submitting the daily report.", ?_, ?_⟩
      · simp [handlerOutput, hname, herr]
      · exact ⟨processRequest now fc, hmemR fc hmem, rfl,
          by simp [processRequest, handlerOutput, hname, herr]⟩
  · intro g hg
    exact ⟨processRequest now g, hmemR g hg, rfl, rfl⟩

/-- C5 witness: a batch with a throwing call (argument object undefined, so
the handler's destructuring throws a TypeError) next to an unrelated call;
the faulted call yields the error payload and the batch keeps both entries. -/
theorem handler_fault_contained_witness :
    (∃ msg : String,
      handlerOutput 0 ⟨"a", "get_voucher_status", .undef⟩
          = .obj [("error", .str msg)]
      ∧ ∃ r ∈ onToolCall 0 [⟨"a", "get_voucher_status", .undef⟩,
            ⟨"b", "claim_refund", .obj []⟩], r.id = "a"
          ∧ r.response.result = serJSON (.obj [("error", .str msg)]))
    ∧ (onToolCall 0 [⟨"a", "get_voucher_status", .undef⟩,
        ⟨"b", "claim_refund", .obj []⟩]).length
        = ([⟨"a", "get_voucher_status", .undef⟩,
            ⟨"b", "claim_refund", .obj []⟩] : List FunctionCallRequest).length
    ∧ ∀ g ∈ ([⟨"a", "get_voucher_status", .undef⟩,
          ⟨"b", "claim_refund", .obj []⟩] : List FunctionCallRequest),
        ∃ r ∈ onToolCall 0 [⟨"a", "get_voucher_status", .undef⟩,
            ⟨"b", "claim_refund", .obj []⟩], r.id = g.id
          ∧ r.response.result = serJSON (handlerOutput 0 g) :=
  handler_fault_contained 0 _ ⟨"a", "get_voucher_status", .undef⟩ (by simp)
    (Or.inl ⟨rfl, "TypeError: cannot read properties of undefined", rfl⟩)

/-- C6: every request whose name is neither get_voucher_status nor
insert_daily_report — the two other declared customer-support tools
included — produces the default acknowledgement payload, never an error:
its handler output is the ok object and its batch entry serialises it. -/
theorem unknown_tool_default_ok (now : Nat) (reqs : List FunctionCallRequest)
    (fc : FunctionCallRequest) (hmem : fc ∈ reqs)
    (h1 : fc.name ≠ "get_voucher_status") (h2 : fc.name ≠ "insert_daily_report") :
    handlerOutput now fc = .obj [("result", .str "ok")]
    ∧ ∃ r ∈ onToolCall now reqs, r.id = fc.id ∧ r.name = fc.name
        ∧ r.response.result = serJSON (.obj [("result", .str "ok")]) := by
  have hout : handlerOutput now fc = .obj [("result", .str "ok")] := by
    simp [handlerOutput, h1, h2]
  have hperm : (onToolCall now reqs).Perm (reqs.map (processRequest now)) :=
    (dispatchOrder_perm reqs).map (processRequest now)
  exact ⟨hout, processRequest now fc,
    hperm.mem_iff.mpr (List.mem_map_of_mem _ hmem), rfl, rfl,
    by simp [processRequest, hout]⟩

/-- C6 witness: claim_refund is a declared tool of the customer-support
registry with no real handler; a batch of one such call gets the default
ok payload. -/
theorem unknown_tool_default_ok_witness :
    "claim_refund" ∈ customerSupportToolNames
    ∧ (handlerOutput 0 ⟨"a", "claim_refund", .obj []⟩
          = .obj [("result", .str "ok")]
      ∧ ∃ r ∈ onToolCall 0 [⟨"a", "claim_refund", .obj []⟩], r.id = "a"
          ∧ r.name = "claim_refund"
          ∧ r.response.result = serJSON (.obj [("result", .str "ok")])) :=
  ⟨by decide,
   unknown_tool_default_ok 0 _ ⟨"a", "claim_refund", .obj []⟩ (by simp)
     (by decide) (by decide)⟩

/-- C7: every result's response.result is the JSON string of the payload
the branch produced for its request, and parsing that string with the JSON
parser recovers that payload exactly, provided the request arguments are
JSON values (wire-decoded arguments contain no undefined). -/
theorem response_result_roundtrip (now : Nat) (reqs : List FunctionCallRequest)
    (hpure : ∀ fc ∈ reqs, jsonPure fc.args = true) :
    ∀ r ∈ onToolCall now reqs, ∃ fc ∈ reqs, r.id = fc.id
      ∧ r.response.result = serJSON (handlerOutput now fc)
      ∧ parseJSON r.response.result = some (handlerOutput now fc) := by
  intro r hr
  simp only [onToolCall, List.mem_map] at hr
  obtain ⟨fc, hfc, rfl⟩ := hr
  have hfc2 : fc ∈ reqs := (dispatchOrder_perm reqs).subset hfc
  exact ⟨fc, hfc2, rfl, rfl,
    parseJSON_serJSON _ (handlerOutput_pure now fc (hpure fc hfc2))⟩

/-- C7 witness: the round trip at a concrete batch entry — a voucher lookup
whose payload string parses back to the active voucher payload. -/
theorem response_result_roundtrip_witness :
    ∃ fc ∈ ([⟨"a", "get_voucher_status",
        .obj [("voucherId", .str "voucher123")]⟩] : List FunctionCallRequest),
      (processRequest 7 ⟨"a", "get_voucher_status",
          .obj [("voucherId", .str "voucher123")]⟩).id = fc.id
      ∧ (processRequest 7 ⟨"a", "get_voucher_status",
          .obj [("voucherId", .str "voucher123")]⟩).response.result
          = serJSON (handlerOutput 7 fc)
      ∧ parseJSON (processRequest 7 ⟨"a", "get_voucher_status",
          .obj [("voucherId", .str "voucher123")]⟩).response.result
          = some (handlerOutput 7 fc) :=
  response_result_roundtrip 7 _ (by decide)
    (processRequest 7 ⟨"a", "get_voucher_status",
      .obj [("voucherId", .str "voucher123")]⟩)
    (by simp [onToolCall, dispatchOrder, handlerDelayMs])

/-- C8 counterexample: a batch of a voucher lookup then a fallback call —
the fallback branch pushes synchronously while the voucher branch waits on
its 800 ms timer, so the response batch comes back in the order b, a, not
the request order a, b. -/
theorem batch_order_cex :
    (onToolCall 0 [⟨"a", "get_voucher_status", .obj []⟩,
        ⟨"b", "claim_refund", .obj []⟩]).map FunctionCallResult.id = ["b", "a"]
    ∧ ([⟨"a", "get_voucher_status", .obj []⟩,
        ⟨"b", "claim_refund", .obj []⟩] : List FunctionCallRequest).map
          FunctionCallRequest.id = ["a", "b"]
    ∧ (["b", "a"] : List String) ≠ ["a", "b"] :=
  ⟨by decide, by decide, by decide⟩

/-- C8 amended: entries appear in handler-completion order — requests
bucketed stably by simulated delay (0 ms fallback, then 600 ms report,
then 800 ms voucher). That order coincides with request order exactly when
the delays are non-decreasing along the batch, in particular whenever all
requests use the same branch. -/
theorem batch_order_sorted_preserved (now : Nat) (reqs : List FunctionCallRequest)
    (hsort : List.Pairwise
      (fun a b => handlerDelayMs a.name ≤ handlerDelayMs b.name) reqs) :
    onToolCall now reqs = reqs.map (processRequest now) := by
  rw [onToolCall, dispatchOrder_sorted reqs hsort]

/-- C8 witness: a batch listed in increasing-delay order (fallback, report,
voucher) keeps the request order. -/
theorem batch_order_sorted_preserved_witness :
    onToolCall 0 [⟨"a", "claim_refund", .obj []⟩,
        ⟨"b", "insert_daily_report", .obj []⟩,
        ⟨"c", "get_voucher_status", .obj []⟩]
      = ([⟨"a", "claim_refund", .obj []⟩,
          ⟨"b", "insert_daily_report", .obj []⟩,
          ⟨"c", "get_voucher_status", .obj []⟩] :
            List FunctionCallRequest).map (processRequest 0) :=
  batch_order_sorted_preserved 0 _ (by decide)

/-- C9 counterexample: two distinct successful invocations observing the
same millisecond clock value produce identical report identifiers — the
time-derived id is not unique. -/
theorem report_id_collision_cex :
    (JVal.obj [("issuedVouchers", .num 5)]) ≠ (JVal.obj [("issuedVouchers", .num 7)])
    ∧ submitDailyReport 1000 (.obj [("issuedVouchers", .num 5)])
        = .ok (reportSuccessPayload 1000 (.obj [("issuedVouchers", .num 5)]))
    ∧ submitDailyReport 1000 (.obj [("issuedVouchers", .num 7)])
        = .ok (reportSuccessPayload 1000 (.obj [("issuedVouchers", .num 7)]))
    ∧ jvField (reportSuccessPayload 1000 (.obj [("issuedVouchers", .num 5)]))
          "reportId"
        = jvField (reportSuccessPayload 1000 (.obj [("issuedVouchers", .num 7)]))
          "reportId" := by
  refine ⟨by decide, ?_, ?_, rfl⟩ <;>
    simp [submitDailyReport, jsProp, fieldValue, isJsNumber, jsNumNeg, bind,
      Except.bind, pure, Except.pure]

/-- C9 amended: report identifiers are unique exactly per observed
timestamp — two successful invocations whose clock readings differ get
distinct reportIds (they collide only when the millisecond values agree,
as the counterexample shows). -/
theorem report_id_distinct_timestamps (n1 n2 : Nat) (args1 args2 p1 p2 : JVal)
    (h1 : submitDailyReport n1 args1 = .ok p1)
    (h2 : submitDailyReport n2 args2 = .ok p2)
    (hs1 : p1 ≠ invalidReportPayload) (hs2 : p2 ≠ invalidReportPayload)
    (hne : n1 ≠ n2) :
    jvField p1 "reportId" ≠ jvField p2 "reportId" := by
  rcases submit_payloads h1 with rfl | rfl
  · exact absurd rfl hs1
  rcases submit_payloads h2 with rfl | rfl
  · exact absurd rfl hs2
  rw [show jvField (reportSuccessPayload n1 args1) "reportId"
      = .str (reportIdString n1) from by simp [reportSuccessPayload, jvField, fieldValue],
    show jvField (reportSuccessPayload n2 args2) "reportId"
      = .str (reportIdString n2) from by simp [reportSuccessPayload, jvField, fieldValue]]
  intro hcontra
  apply hne
  have hstr : reportIdString n1 = reportIdString n2 := by
    simpa using hcontra
  have hd := congrArg String.data hstr
  simp [reportIdString, natStr, String.data_append] at hd
  exact natChars_inj hd

/-- C9 witness: clock values one and two give different report ids. -/
theorem report_id_distinct_timestamps_witness :
    jvField (reportSuccessPayload 1 (.obj [("issuedVouchers", .num 5)])) "reportId"
      ≠ jvField (reportSuccessPayload 2 (.obj [("issuedVouchers", .num 5)])) "reportId" :=
  report_id_distinct_timestamps 1 2 (.obj [("issuedVouchers", .num 5)])
    (.obj [("issuedVouchers", .num 5)]) _ _
    (by simp [submitDailyReport, jsProp, fieldValue, isJsNumber, jsNumNeg, bind,
      Except.bind, pure, Except.pure])
    (by simp [submitDailyReport, jsProp, fieldValue, isJsNumber, jsNumNeg, bind,
      Except.bind, pure, Except.pure])
    (by simp [reportSuccessPayload, invalidReportPayload])
    (by simp [reportSuccessPayload, invalidReportPayload])
    (by decide)

/-- C10: an empty-string voucherId is falsy, so the voucherId branch is
skipped entirely — for every customerEmail value the call behaves exactly
as if voucherId were absent; with the known address it returns the active
loyalty payload and with both identifiers empty it returns not_found. -/
theorem empty_voucher_id_skipped :
    (∀ v : JVal, fetchVoucherStatus (.obj [("voucherId", .str ""),
        ("customerEmail", v)]) = fetchVoucherStatus (.obj [("customerEmail", v)]))
    ∧ fetchVoucherStatus (.obj [("voucherId", .str ""),
        ("customerEmail", .str "active@example.com")]) = .ok activeLoyaltyPayload
    ∧ fetchVoucherStatus (.obj [("voucherId", .str ""),
        ("customerEmail", .str "")]) = .ok notFoundPayload := by
  refine ⟨?_, by decide, by decide⟩
  intro v
  simp [fetchVoucherStatus, jsProp, fieldValue, truthy, bind, Except.bind,
    pure, Except.pure, upperStr, show ("" : String).isEmpty = true from by decide]
